import Mathlib

/-!
Verification development for the Fashion-Finder serverless search API
(`src/api/search.js`).  The JavaScript functions are shallowly embedded as
executable Lean definitions over `List Char` / `String`, with JavaScript
runtime values modelled by the inductive type `JSVal` and JavaScript numbers
modelled by `ℚ` (exact rationals; binary-float rounding is not modelled).
Operations that can throw in JavaScript are modelled in `Except String`;
everything network-dependent (axios responses, parsed upstream JSON) is a
parameter of the embedded function.
-/

set_option autoImplicit false

namespace FashionFinder

/-! ### Characters and whitespace

`isJsWs` models the JavaScript `\s` character class / `String.prototype.trim`
set: ASCII whitespace, NBSP, the Unicode space separators, line separators and
the BOM. -/

def isJsWs (c : Char) : Bool :=
  c = ' ' || c = '\t' || c = '\n' || c = '\r' ||
  c = Char.ofNat 0x0b || c = Char.ofNat 0x0c ||
  c = Char.ofNat 0xa0 || c = Char.ofNat 0x1680 ||
  (0x2000 ≤ c.toNat && c.toNat ≤ 0x200a) ||
  c = Char.ofNat 0x2028 || c = Char.ofNat 0x2029 || c = Char.ofNat 0x202f ||
  c = Char.ofNat 0x205f || c = Char.ofNat 0x3000 || c = Char.ofNat 0xfeff

def isDigitC (c : Char) : Bool := '0' ≤ c && c ≤ '9'

/-- Left trim, as the leading half of `String.prototype.trim`. -/
def ltrim (l : List Char) : List Char := l.dropWhile isJsWs

/-- Right trim, structurally recursive: drop the trailing whitespace run. -/
def rtrim : List Char → List Char
  | [] => []
  | c :: cs =>
    match rtrim cs with
    | [] => if isJsWs c then [] else [c]
    | r => c :: r

/-- `String.prototype.trim`. -/
def trimBoth (l : List Char) : List Char := rtrim (ltrim l)

/-- Collapse every whitespace run to a single `' '`.  This is the composite of
the source's `.replace(/[\n\r\t]+/g, ' ').replace(/\s+/g, ' ')` (the first
replace is subsumed by the second). -/
def collapseWs : List Char → List Char
  | [] => []
  | [c] => if isJsWs c then [' '] else [c]
  | c1 :: c2 :: rest =>
    if isJsWs c1 && isJsWs c2 then collapseWs (c2 :: rest)
    else (if isJsWs c1 then ' ' else c1) :: collapseWs (c2 :: rest)

/-- Case-insensitive prefix match (ASCII folding, as the `/i` regex flag on the
ASCII patterns used by the source).  On success, returns the remainder of the
input after the pattern. -/
def ciStrip : List Char → List Char → Option (List Char)
  | [], l => some l
  | _ :: _, [] => none
  | p :: ps, c :: cs => if p.toLower = c.toLower then ciStrip ps cs else none

theorem ciStrip_length {p l r : List Char} (hp : p ≠ [])
    (h : ciStrip p l = some r) : r.length < l.length := by
  induction p generalizing l with
  | nil => exact absurd rfl hp
  | cons a as ih =>
    cases l with
    | nil => simp [ciStrip] at h
    | cons c cs =>
      simp only [ciStrip] at h
      split at h
      · cases as with
        | nil =>
          simp [ciStrip] at h
          simp [h]
        | cons b bs =>
          have := ih (by simp) h
          simp only [List.length_cons]
          omega
      · exact absurd h (by simp)

theorem ciStrip_append {p l r : List Char} (h : ciStrip p l = some r) :
    ∃ s, l = s ++ r := by
  induction p generalizing l with
  | nil => exact ⟨[], by simpa [ciStrip] using h⟩
  | cons a as ih =>
    cases l with
    | nil => simp [ciStrip] at h
    | cons c cs =>
      simp only [ciStrip] at h
      split at h
      · obtain ⟨s, hs⟩ := ih h
        exact ⟨c :: s, by simp [hs]⟩
      · exact absurd h (by simp)

/-- Try a list of case-insensitive patterns, in order, at the head of `l`
(the alternation order of a `/a|b|.../gi` regex). -/
def tryPats : List (List Char) → List Char → Option (List Char)
  | [], _ => none
  | p :: ps, l =>
    match ciStrip p l with
    | some r => some r
    | none => tryPats ps l

theorem tryPats_length {pats : List (List Char)} {l r : List Char}
    (hp : ∀ p ∈ pats, p ≠ []) (h : tryPats pats l = some r) :
    r.length < l.length := by
  induction pats with
  | nil => simp [tryPats] at h
  | cons p ps ih =>
    simp only [tryPats] at h
    cases hc : ciStrip p l with
    | some r' =>
      rw [hc] at h
      cases h
      exact ciStrip_length (hp p (by simp)) hc
    | none =>
      rw [hc] at h
      exact ih (fun q hq => hp q (by simp [hq])) h

/-! ### Decimal digits -/

def natDigitsAux : ℕ → ℕ → List Char
  | 0, _ => []
  | fuel + 1, n =>
    if n < 10 then [Char.ofNat (48 + n)]
    else natDigitsAux fuel (n / 10) ++ [Char.ofNat (48 + n % 10)]

/-- Decimal digits of a natural number (structural fuel recursion so that the
kernel can evaluate it; `n` digits need at most `n + 1` fuel). -/
def natDigits (n : ℕ) : List Char := natDigitsAux (n + 1) n

def natStr (n : ℕ) : String := String.mk (natDigits n)

def digitsToNat (l : List Char) : ℕ :=
  l.foldl (fun acc c => 10 * acc + (c.toNat - 48)) 0

/-! ### JavaScript numbers

Every number these code paths handle is an exact decimal value (JSON numbers,
`parseFloat` of decimal strings, division by 100), so JavaScript numbers are
embedded as exact decimals: an integer mantissa over a power-of-ten scale.
This keeps every operation kernel-computable; `JNum.toQ` gives the rational
value for use in theorem statements, and the bridge lemmas below identify the
integer comparisons used by the code with the rational order.  Binary-float
rounding is not modelled. -/

def pow10 : ℕ → ℤ
  | 0 => 1
  | n + 1 => 10 * pow10 n

def pow10N : ℕ → ℕ
  | 0 => 1
  | n + 1 => 10 * pow10N n

/-- A JavaScript number: the exact decimal `mant / 10 ^ scale`. -/
structure JNum where
  mant : ℤ
  scale : ℕ
  deriving DecidableEq, Repr

/-- The rational value of a `JNum`. -/
def JNum.toQ (v : JNum) : ℚ := (v.mant : ℚ) / (10 : ℚ) ^ v.scale

/-- The comparison `v > 0`. -/
def jnPos (v : JNum) : Bool := 0 < v.mant

/-- The comparison `v < 50000`. -/
def jnLt50000 (v : JNum) : Bool := v.mant < 50000 * pow10 v.scale

/-- The comparison `v > 100`. -/
def jnGt100 (v : JNum) : Bool := 100 * pow10 v.scale < v.mant

/-- `Number.isInteger(v)`. -/
def jnIsInt (v : JNum) : Bool := v.mant % pow10 v.scale = 0

/-- The exact division `v / 100`. -/
def jnDiv100 (v : JNum) : JNum := ⟨v.mant, v.scale + 2⟩

/-- Drop trailing decimal zeros (structural on the scale). -/
def jnStrip : ℤ → ℕ → ℤ × ℕ
  | m, 0 => (m, 0)
  | m, s + 1 => if m % 10 = 0 then jnStrip (m / 10) s else (m, s + 1)

/-- JavaScript `String(number)` for the exact decimal values arising here:
the shortest decimal digit string (trailing fractional zeros dropped), with a
`.` separating the fractional digits when any remain.  Exponent notation for
very large/small magnitudes is not modelled. -/
def jnumToStr (v : JNum) : String :=
  let (m, s) := jnStrip v.mant v.scale
  if m = 0 then "0"
  else
    let sign := if m < 0 then "-" else ""
    let x := m.natAbs
    if s = 0 then sign ++ natStr x
    else
      let frac := natDigits (x % pow10N s)
      sign ++ natStr (x / pow10N s) ++ "." ++
        String.mk (List.replicate (s - frac.length) '0' ++ frac)

/-! ### JavaScript values -/

/-- A JavaScript runtime value, as far as the embedded code inspects one.
`obj` is an object whose structure is irrelevant except for truthiness and
string coercion.  `NaN` never reaches a `JSVal` in the modelled code paths
(upstream values come from JSON, which cannot encode it), so there is no
constructor for it; `parseFloat` returning `NaN` is modelled as `Option.none`. -/
inductive JSVal where
  | null
  | undef
  | str (s : String)
  | num (v : JNum)
  | bool (b : Bool)
  | obj
  deriving DecidableEq, Repr

/-- JavaScript truthiness (for a number, `v ≠ 0`, i.e. a nonzero mantissa). -/
def truthy : JSVal → Bool
  | .null => false
  | .undef => false
  | .str s => s ≠ ""
  | .num v => v.mant ≠ 0
  | .bool b => b
  | .obj => true

/-- The `||` operator on JavaScript values. -/
def jsOr (a b : JSVal) : JSVal := if truthy a then a else b

/-- The `??` (nullish coalescing) operator. -/
def jsCoalesce (a b : JSVal) : JSVal :=
  match a with
  | .null => b
  | .undef => b
  | v => v

def isNullish : JSVal → Bool
  | .null => true
  | .undef => true
  | _ => false

def isStrV : JSVal → Bool
  | .str _ => true
  | _ => false

/-- JavaScript `String(v)` / template-literal coercion. -/
def jsToString : JSVal → String
  | .null => "null"
  | .undef => "undefined"
  | .str s => s
  | .num v => jnumToStr v
  | .bool b => if b then "true" else "false"
  | .obj => "[object Object]"

/-- JavaScript `parseFloat`, on the exact decimal reading of the string:
skip leading whitespace, optional sign, digits, optional fraction, optional
exponent; `none` models `NaN`.  The `Infinity` literal is not modelled (none
of the modelled data paths produce it). -/
def jsParseFloat (l : List Char) : Option JNum :=
  let l1 := l.dropWhile isJsWs
  let (neg, l2) :=
    match l1 with
    | '-' :: r => (true, r)
    | '+' :: r => (false, r)
    | _ => (false, l1)
  let ip := l2.takeWhile isDigitC
  let l3 := l2.dropWhile isDigitC
  let (fp, l4) :=
    match l3 with
    | '.' :: r => (r.takeWhile isDigitC, r.dropWhile isDigitC)
    | _ => ([], l3)
  if ip.isEmpty && fp.isEmpty then none
  else
    let base : ℤ := (digitsToNat (ip ++ fp) : ℤ)
    let m0 : ℤ := if neg then -base else base
    let (eneg, ed) :=
      match l4 with
      | c :: r =>
        if c = 'e' || c = 'E' then
          let (es, r2) :=
            match r with
            | '-' :: rr => (true, rr)
            | '+' :: rr => (false, rr)
            | _ => (false, r)
          let d := r2.takeWhile isDigitC
          if d.isEmpty then (false, 0) else (es, digitsToNat d)
        else (false, 0)
      | [] => (false, 0)
    some (if eneg then ⟨m0, fp.length + ed⟩ else ⟨m0 * pow10 ed, fp.length⟩)

/-- JavaScript `Number.prototype.toFixed(2)` on an exact decimal: sign is
taken out first, then the nearest multiple of 1/100 with ties rounded up, per
the ECMAScript specification of `toFixed`.  With `|v| = x / 10^s`, the rounded
integer numerator is `⌊(x·200 + 10^s) / (2·10^s)⌋`. -/
def toFixed2 (v : JNum) : String :=
  let x := v.mant.natAbs
  let m := (x * 200 + pow10N v.scale) / (2 * pow10N v.scale)
  (if v.mant < 0 then "-" else "") ++ natStr (m / 100) ++ "." ++
    (if m % 100 < 10 then "0" ++ natStr (m % 100) else natStr (m % 100))

/-! ### Configuration constants (search.js lines 15-17) -/

def MAX_RESULTS : ℕ := 12

/-- The characters `encodeURIComponent` leaves unescaped. -/
def isUriUnreserved (c : Char) : Bool :=
  c.isAlphanum || c = '-' || c = '_' || c = '.' || c = '!' || c = '~' ||
  c = '*' || c = Char.ofNat 39 || c = '(' || c = ')'

def hexDigit (n : ℕ) : Char :=
  if n < 10 then Char.ofNat (48 + n) else Char.ofNat (55 + n)

/-- JavaScript `encodeURIComponent`, for the ASCII strings it is applied to
here (multi-byte UTF-8 expansion is not needed for those). -/
def encodeURIComponent (l : List Char) : List Char :=
  l.flatMap (fun c =>
    if isUriUnreserved c then [c]
    else ['%', hexDigit (c.toNat / 16), hexDigit (c.toNat % 16)])

def PLACEHOLDER_SVG : String :=
  "<svg xmlns=\"http://www.w3.org/2000/svg\" width=\"400\" height=\"500\" " ++
  "fill=\"%23f5f5f5\"><rect width=\"400\" height=\"500\"/><text x=\"200\" " ++
  "y=\"240\" text-anchor=\"middle\" fill=\"%239ca3af\" " ++
  "font-family=\"sans-serif\" font-size=\"16\">No image</text></svg>"

def PLACEHOLDER_IMAGE : String :=
  "data:image/svg+xml," ++ String.mk (encodeURIComponent PLACEHOLDER_SVG.data)

/-! ### Price normalizer (search.js lines 58-73, `cleanPrice`) -/

/-- Does the string contain the literal range separator `" - "`
(`cleaned.includes(' - ')`)? -/
def hasRangeSep : List Char → Bool
  | ' ' :: '-' :: ' ' :: _ => true
  | _ :: cs => hasRangeSep cs
  | [] => false

/-- Everything before the first `" - "` (`cleaned.split(' - ')[0]`). -/
def takeBeforeRangeSep : List Char → List Char
  | ' ' :: '-' :: ' ' :: _ => []
  | c :: cs => c :: takeBeforeRangeSep cs
  | [] => []

/-- Case-insensitive substring test for `"from"`
(`cleaned.toLowerCase().includes('from')`). -/
def hasFromCI : List Char → Bool
  | [] => false
  | c :: cs => (ciStrip ['f', 'r', 'o', 'm'] (c :: cs)).isSome || hasFromCI cs

def replaceFromAux : ℕ → List Char → List Char
  | 0, l => l
  | _, [] => []
  | fuel + 1, c :: cs =>
    match ciStrip ['f', 'r', 'o', 'm'] (c :: cs) with
    | some rest => replaceFromAux fuel rest
    | none => c :: replaceFromAux fuel cs

/-- Case-insensitive global removal of `"from"` (`.replace(/from/gi, '')`):
scan left to right, skipping each non-overlapping match.  Structural fuel
recursion (each step strictly shortens the input, so `length + 1` fuel always
suffices). -/
def replaceFromCI (l : List Char) : List Char := replaceFromAux (l.length + 1) l

/-- The alternation of `/usd|us\$|aud|gbp|eur|cad/gi`, in source order. -/
def currencyCodePats : List (List Char) :=
  [['u', 's', 'd'], ['u', 's', '$'], ['a', 'u', 'd'],
   ['g', 'b', 'p'], ['e', 'u', 'r'], ['c', 'a', 'd']]

def replaceCurrencyAux : ℕ → List Char → List Char
  | 0, l => l
  | _, [] => []
  | fuel + 1, c :: cs =>
    match tryPats currencyCodePats (c :: cs) with
    | some rest => replaceCurrencyAux fuel rest
    | none => c :: replaceCurrencyAux fuel cs

/-- Global case-insensitive removal of the currency-code tokens
(`.replace(/usd|us\$|aud|gbp|eur|cad/gi, '')`); fuel recursion as above. -/
def replaceCurrencyCodes (l : List Char) : List Char :=
  replaceCurrencyAux (l.length + 1) l

def isCurrSym (c : Char) : Bool := c = '$' || c = '£' || c = '€'

def isDigitComma (c : Char) : Bool := isDigitC c || c = ','

/-- One attempt of the regex `[\$£€]?\s*[\d,]+\.?\d*` anchored at the head of
`l`; all quantifiers are greedy and, for this pattern, backtracking can never
recover a failure (the only fallback — dropping the optional currency symbol —
leaves the required `[\d,]+` facing the symbol character, which fails). -/
def priceMatchAt (l : List Char) : Option (List Char) :=
  let (sym, l1) :=
    match l with
    | c :: r => if isCurrSym c then ([c], r) else ([], c :: r)
    | [] => ([], [])
  let ws := l1.takeWhile isJsWs
  let l2 := l1.dropWhile isJsWs
  let ds := l2.takeWhile isDigitComma
  if ds.isEmpty then none
  else
    let l3 := l2.dropWhile isDigitComma
    let (dot, l4) :=
      match l3 with
      | '.' :: r => (['.'], r)
      | _ => ([], l3)
    some (sym ++ ws ++ ds ++ dot ++ l4.takeWhile isDigitC)

/-- Leftmost match of `[\$£€]?\s*[\d,]+\.?\d*` (`cleaned.match(...)`),
returning `match[0]`. -/
def findPriceMatch : List Char → Option (List Char)
  | [] => none
  | c :: cs =>
    match priceMatchAt (c :: cs) with
    | some m => some m
    | none => findPriceMatch cs

/-- Lines 62-64 of `cleanPrice`, on the already-trimmed string `cleaned`:
collapse a price range to its first bound, strip `from`, strip currency-code
tokens (each step re-trimming exactly as the source does). -/
def pricePre (c0 : List Char) : List Char :=
  let c1 := if hasRangeSep c0 then trimBoth (takeBeforeRangeSep c0) else c0
  let c2 := if hasFromCI c1 then trimBoth (replaceFromCI c1) else c1
  trimBoth (replaceCurrencyCodes c2)

/-- Lines 67-68: `match[0].trim().replace(/,/g, '')`, then prefix `'$'` unless
the string already starts with a currency symbol. -/
def matchPriceStr (m : List Char) : List Char :=
  let p1 := (trimBoth m).filter (fun c => !(c = ','))
  if (match p1 with | c :: _ => isCurrSym c | [] => false) then p1 else '$' :: p1

/-- Line 69: `parseFloat(price.replace(/[^0-9.]/g, ''))`. -/
def matchNumVal (m : List Char) : Option JNum :=
  jsParseFloat ((matchPriceStr m).filter (fun c => isDigitC c || c = '.'))

/-- Lines 66-72: build the display price from the regex match, keeping it only
when the numeric value is plausible (`numVal > 0 && numVal < 50000`). -/
def priceFromMatch (m : List Char) : Option String :=
  match matchNumVal m with
  | some v =>
    if jnPos v && jnLt50000 v then some (String.mk (matchPriceStr m)) else none
  | none => none

/-- `cleanPrice` from the trimmed string onward: the line 61 emptiness guard,
then the regex pipeline. -/
def cleanPriceTail (c0 : List Char) : Option String :=
  if c0.isEmpty then none
  else
    match findPriceMatch (pricePre c0) with
    | some m => priceFromMatch m
    | none => none

/-- `cleanPrice` on a string argument that passed the
`!priceStr || typeof priceStr !== 'string'` guard. -/
def cleanPriceCore (s : String) : Option String :=
  cleanPriceTail (trimBoth s.data)

/-- `cleanPrice` (search.js lines 58-73). -/
def cleanPrice : JSVal → Option String
  | .str s => if s = "" then none else cleanPriceCore s
  | _ => none

/-! ### Title normalizer (search.js lines 75-83, `cleanTitle`) -/

/-- The alternation `(new|sale|hot|best seller)` of the promotional-prefix
regex, in source order.  The regex is anchored with `^` and has no `m` flag,
so despite `/g` it strips at most one prefix per call. -/
def promoRest? (l : List Char) : Option (List Char) :=
  match ciStrip ['n', 'e', 'w'] l with
  | some r => some r
  | none =>
    match ciStrip ['s', 'a', 'l', 'e'] l with
    | some r => some r
    | none =>
      match ciStrip ['h', 'o', 't'] l with
      | some r => some r
      | none => ciStrip ['b', 'e', 's', 't', ' ', 's', 'e', 'l', 'l', 'e', 'r'] l

/-- The `[:\s-]*` tail of the promotional-prefix regex. -/
def isPromoPunct (c : Char) : Bool := c = ':' || isJsWs c || c = '-'

/-- Line 78: `cleaned.replace(/^(new|sale|hot|best seller)[:\s-]*/gi, '').trim()`. -/
def stripPromo (l : List Char) : List Char :=
  match promoRest? l with
  | some r => trimBoth (r.dropWhile isPromoPunct)
  | none => trimBoth l

/-- Lines 79-81: truncate to the 120-character cap with a trailing ellipsis
(`maxLength` is always the default 120 at every call site). -/
def truncTitle (l : List Char) : List Char :=
  if 120 < l.length then l.take 117 ++ ['.', '.', '.'] else l

/-- `cleanTitle` on a nonempty string argument. -/
def cleanTitleStr (s : String) : String :=
  if s = "" then "Unknown Product"
  else String.mk (truncTitle (stripPromo (collapseWs (trimBoth s.data))))

/-- `cleanTitle` (search.js lines 75-83). -/
def cleanTitle : JSVal → String
  | .str s => cleanTitleStr s
  | _ => "Unknown Product"

/-! ### Image URL normalizer (search.js lines 85-92, `cleanImageUrl`) -/

/-- Does the WHATWG `new URL(s)` constructor succeed?  Approximated by its
scheme requirement: an ASCII-alpha-initial scheme followed by `:`.  (The full
WHATWG host grammar is not modelled; every concrete URL a theorem in this file
evaluates is well-formed under both readings.) -/
def schemeTail : List Char → Bool
  | [] => false
  | c :: cs =>
    if c = ':' then true
    else (c.isAlphanum || c = '+' || c = '-' || c = '.') && schemeTail cs

def jsURLOk : List Char → Bool
  | c :: rest => c.isAlpha && schemeTail rest
  | [] => false

/-- Case-sensitive prefix test (`String.prototype.startsWith`). -/
def startsWithLit : List Char → List Char → Bool
  | [], _ => true
  | _ :: _, [] => false
  | p :: ps, c :: cs => p = c && startsWithLit ps cs

/-- The alternation of `/placeholder|blank\.gif|1x1|spacer/i`. -/
def placeholderPats : List (List Char) :=
  [['p', 'l', 'a', 'c', 'e', 'h', 'o', 'l', 'd', 'e', 'r'],
   ['b', 'l', 'a', 'n', 'k', '.', 'g', 'i', 'f'],
   ['1', 'x', '1'],
   ['s', 'p', 'a', 'c', 'e', 'r']]

def hasPlaceholderPat : List Char → Bool
  | [] => false
  | c :: cs => (tryPats placeholderPats (c :: cs)).isSome || hasPlaceholderPat cs

/-- The `new URL(s)` constructor: returns the input on success, throws a
`TypeError` on a malformed URL. -/
def urlCtorE (s : String) : Except String String :=
  if jsURLOk s.data then .ok s else .error "Invalid URL"

/-- `cleanImageUrl` from the trimmed character list onward (lines 87-91); the
final step is the `try { new URL(cleaned); return cleaned } catch { return null }`. -/
def cleanImageUrlCore (t : List Char) : Option String :=
  let c1 := match t with
    | '/' :: '/' :: _ => ['h', 't', 't', 'p', 's', ':'] ++ t
    | _ => t
  if startsWithLit ['d', 'a', 't', 'a', ':'] c1 then none
  else if hasPlaceholderPat c1 then none
  else
    match urlCtorE (String.mk c1) with
    | .ok _ => some (String.mk c1)
    | .error _ => none

/-- `cleanImageUrl` (search.js lines 85-92). -/
def cleanImageUrl : JSVal → Option String
  | .str s => if s = "" then none else cleanImageUrlCore (trimBoth s.data)
  | _ => none

/-! ### Formatter and validity filter (search.js lines 94-109) -/

/-- A candidate record: exactly the `{title, price, image, link}` bag an
adapter passes to `formatProduct`. -/
structure Candidate where
  title : JSVal
  price : JSVal
  image : JSVal
  link : JSVal
  deriving DecidableEq, Repr

/-- A normalized Product.  `generateProductId()` mixes `Date.now()` with
`Math.random()` and no claim concerns the `id` field, so the generator is
modelled as the constant `""`. -/
structure Product where
  id : String
  store : String
  storeName : String
  title : String
  price : JSVal
  image : String
  link : JSVal
  deriving DecidableEq, Repr

def optStrVal : Option String → JSVal
  | some s => .str s
  | none => .null

/-- `formatProduct` (search.js lines 94-105). -/
def formatProduct (data : Candidate) (storeName storeId : String) : Option Product :=
  if !truthy data.title && !truthy data.link then none
  else some
    { id := ""
      store := storeId
      storeName := storeName
      title := (fun t => if t = "" then "Unknown Product" else t) (cleanTitle data.title)
      price := jsOr (jsOr (optStrVal (cleanPrice data.price)) data.price) (.str "See price")
      image :=
        match cleanImageUrl data.image with
        | some s => if s = "" then PLACEHOLDER_IMAGE else s
        | none => PLACEHOLDER_IMAGE
      link := jsOr data.link (.str "#") }

/-- The per-element test of `filterValidProducts`
(`p !== null && p.title && p.title !== 'Unknown Product' && p.link && p.link !== '#'`),
as an `Option`-valued keep function. -/
def validOne (p : Product) : Option Product :=
  if p.title ≠ "" ∧ p.title ≠ "Unknown Product" ∧ truthy p.link = true ∧ p.link ≠ .str "#"
  then some p else none

/-- `filterValidProducts` (search.js lines 107-109).  The JavaScript array of
`Product | null` is a `List (Option Product)`; filtering the nulls and the
sentinel-carrying records is a `filterMap`. -/
def filterValidProducts (ops : List (Option Product)) : List Product :=
  ops.filterMap (fun op => op.bind validOne)

/-! ### Store configuration (search.js lines 32-48, `STORE_CONFIG`) -/

structure StoreConfig where
  name : String
  domain : Option String := none
  type : Option String := none
  deriving DecidableEq, Repr

def STORE_CONFIG : String → Option StoreConfig
  | "whitefox" => some { name := "White Fox", domain := some "www.whitefoxboutique.com" }
  | "princesspolly" => some { name := "Princess Polly", domain := some "us.princesspolly.com" }
  | "reformation" => some { name := "Reformation", domain := some "www.thereformation.com" }
  | "showpo" => some { name := "Showpo", domain := some "www.showpo.com" }
  | "vici" => some { name := "Vici", domain := some "www.vicicollection.com" }
  | "altardstate" => some { name := "Altar'd State", domain := some "www.altardstate.com" }
  | "francescas" => some { name := "Francesca's", domain := some "www.francescas.com" }
  | "windsor" => some { name := "Windsor", domain := some "www.windsorstore.com" }
  | "asos" => some { name := "ASOS", type := some "asos" }
  | "hm" => some { name := "H&M", type := some "hm" }
  | "lulus" => some { name := "Lulus", type := some "lulus" }
  | "nordstrom" => some { name := "Nordstrom", type := some "nordstrom" }
  | "shein" => some { name := "SHEIN", type := some "shein" }
  | _ => none

/-! ### Transport layer (search.js lines 111-126, `fetchJSON`)

An axios call either rejects (timeout, DNS failure, connection refused, or —
because of `validateStatus: s => s < 500` — an HTTP status of 500 or more) or
resolves with a status below 500 and a body.  The body is already given as its
parsed payload `α` or as a `JSON.parse` exception. -/

def fetchJSON {α : Type} (transport : Except String (ℕ × Except String α)) :
    Except String α :=
  match transport with
  | .error e => .error e
  | .ok (status, parsed) =>
    if 400 ≤ status then .error ("HTTP " ++ natStr status)
    else parsed

/-! ### Tier 1 Shopify adapter (search.js lines 147-191, `scrapeShopifyStore`) -/

/-- The `featured_image` field of a Shopify suggest item: absent, a plain URL
string, or an object with a `url` property. -/
inductive FeatImg where
  | missing
  | s (v : String)
  | obj (url : JSVal)
  deriving DecidableEq, Repr

/-- `p.featured_image?.url` — optional chaining returns `undefined` for a
missing field or a string receiver, and the `url` property of an object. -/
def featUrl : FeatImg → JSVal
  | .missing => .undef
  | .s _ => .undef
  | .obj u => u

/-- `p.featured_image` as a plain value. -/
def featVal : FeatImg → JSVal
  | .missing => .undef
  | .s v => .str v
  | .obj _ => .obj

/-- One product item of `data.resources.results.products`. -/
structure ShopifyItem where
  title : JSVal
  price : JSVal
  price_min : JSVal
  image : JSVal
  featured_image : FeatImg
  url : JSVal
  deriving DecidableEq, Repr

/-- `String.prototype.startsWith` as a method call: throws a `TypeError` when
the receiver is a truthy non-string (the only way line 162 can throw). -/
def jsStartsWithE (v : JSVal) (pat : List Char) : Except String Bool :=
  match v with
  | .str s => .ok (startsWithLit pat s.data)
  | _ => .error "image.startsWith is not a function"

/-- The tail `(\?.*)?$` of the image-size regex: the position after the
extension must be the end of the string, or a `?` followed by characters `.`
can match (no line terminators) up to the end.  Returns the matched query
suffix. -/
def imgQueryTail : List Char → Option (List Char)
  | [] => some []
  | '?' :: rest =>
    if rest.all (fun c => !(c = '\n' || c = '\r' || c = Char.ofNat 0x2028 || c = Char.ofNat 0x2029))
    then some ('?' :: rest) else none
  | _ => none

/-- The `\.(jpg|png|webp)` part, returning the extension and the remainder. -/
def imgExtAt : List Char → Option (List Char × List Char)
  | '.' :: 'j' :: 'p' :: 'g' :: r => some (['j', 'p', 'g'], r)
  | '.' :: 'p' :: 'n' :: 'g' :: r => some (['p', 'n', 'g'], r)
  | '.' :: 'w' :: 'e' :: 'b' :: 'p' :: r => some (['w', 'e', 'b', 'p'], r)
  | _ => none

/-- The optional `(_\d+x\d+)` group (greedy, and deterministic because the
digit runs are delimited by the literal `x` and `.`). -/
def imgDimsAt : List Char → Option (List Char)
  | '_' :: rest =>
    let d1 := rest.takeWhile isDigitC
    let r1 := rest.dropWhile isDigitC
    if d1.isEmpty then none
    else
      match r1 with
      | 'x' :: r2 =>
        let d2 := r2.takeWhile isDigitC
        if d2.isEmpty then none else some (r2.dropWhile isDigitC)
      | _ => none
  | _ => none

/-- A full attempt of `(_\d+x\d+)?\.(jpg|png|webp)(\?.*)?$` at the current
position: try with the size group first (greedy `?`), falling back to the
empty group.  Returns the extension and matched query suffix. -/
def imgPatAt (l : List Char) : Option (List Char × List Char) :=
  let rest := fun (l' : List Char) =>
    match imgExtAt l' with
    | some (ext, r) =>
      match imgQueryTail r with
      | some q => some (ext, q)
      | none => none
    | none => none
  match imgDimsAt l with
  | some r1 =>
    match rest r1 with
    | some x => some x
    | none => rest l
  | none => rest l

/-- Line 163: `image.replace(/(_\d+x\d+)?\.(jpg|png|webp)(\?.*)?$/, '_600x.$2$3')` —
replace the leftmost (hence only, as every match runs to the end of the
string) occurrence. -/
def imgUpsize : List Char → List Char
  | [] => []
  | c :: cs =>
    match imgPatAt (c :: cs) with
    | some (ext, q) => ['_', '6', '0', '0', 'x', '.'] ++ ext ++ q
    | none => c :: imgUpsize cs

/-- Lines 161-163: resolve the image field with `||` fallbacks, force the
protocol, upsize.  Throws (for the outer `catch`) when a truthy non-string
reaches `.startsWith`. -/
def shopifyImage (p : ShopifyItem) : Except String JSVal :=
  let image := jsOr (jsOr (jsOr p.image (featUrl p.featured_image)) (featVal p.featured_image)) (.str "")
  if truthy image then
    match jsStartsWithE image ['h', 't', 't', 'p'] with
    | .error e => .error e
    | .ok sw =>
      match image with
      | .str s =>
        let s1 := if sw then s.data else ('h' :: 't' :: 't' :: 'p' :: 's' :: ':' :: s.data)
        .ok (.str (String.mk (imgUpsize s1)))
      | _ => .error "image.startsWith is not a function"
  else .ok image

/-- Lines 165-175: the cents-heuristic price mapping.
`rawPrice = p.price ?? p.price_min ?? null`. -/
def shopifyRawPrice (p : ShopifyItem) : JSVal :=
  jsCoalesce (jsCoalesce p.price p.price_min) .null

def shopifyPriceOf (p : ShopifyItem) : String :=
  let raw := shopifyRawPrice p
  if isNullish raw then "See price"
  else
    let s := jsToString raw
    match jsParseFloat s.data with
    | none => "See price"
    | some nv =>
      if jnPos nv then
        let isCents := jnIsInt nv && jnGt100 nv && !(s.data.contains '.')
        let dollars := if isCents then jnDiv100 nv else nv
        "$" ++ toFixed2 dollars
      else "See price"

/-- Lines 160-182: the body of `products.slice(0, MAX_RESULTS).map(p => ...)`,
producing the candidate record handed to `formatProduct`. -/
def shopifyItemToCand (domain : String) (p : ShopifyItem) : Except String Candidate :=
  match shopifyImage p with
  | .error e => .error e
  | .ok image =>
    .ok { title := p.title
          price := .str (shopifyPriceOf p)
          image := image
          link := .str ("https://" ++ domain ++ jsToString p.url) }

/-- JavaScript `Array.prototype.map` with a possibly-throwing body: elements
are processed left to right and the first exception escapes the whole map. -/
def exceptMapList {α β : Type} (f : α → Except String β) : List α → Except String (List β)
  | [] => .ok []
  | a :: as =>
    match f a with
    | .error e => .error e
    | .ok b =>
      match exceptMapList f as with
      | .error e => .error e
      | .ok bs => .ok (b :: bs)

/-- `scrapeShopifyStore` (search.js lines 147-191).  `transport` stands for the
axios call on the suggest endpoint; the parsed payload is the (possibly empty)
`data?.resources?.results?.products || []` list.  Everything inside the `try`
that throws — a transport rejection, an HTTP ≥ 400 status, a `JSON.parse`
failure, or a `TypeError` inside the map — is caught, logged, and turned into
the `return []` fallthrough. -/
def scrapeShopifyStore (storeId : String)
    (transport : Except String (ℕ × Except String (List ShopifyItem))) : List Product :=
  match STORE_CONFIG storeId with
  | none => []
  | some config =>
    match config.domain with
    | none => []
    | some domain =>
      match fetchJSON transport with
      | .error _ => []
      | .ok products =>
        if 0 < products.length then
          match exceptMapList
              (fun p => (shopifyItemToCand domain p).map
                (fun c => formatProduct c config.name storeId))
              (products.take MAX_RESULTS) with
          | .ok formatted => filterValidProducts formatted
          | .error _ => []
        else []

/-! ### Tier 2 H&M adapter (search.js lines 227-262, `scrapeHM`) -/

/-- One item of an embedded `"products"` JSON array.  Optional-chain lookups
such as `item.whitePrice?.formattedValue` are pre-flattened to single `JSVal`
fields (property access on a non-nullish receiver cannot throw, so this is
value-faithful). -/
structure HMItem where
  title : JSVal
  name : JSVal
  price : JSVal
  whitePrice_formattedValue : JSVal
  redPrice_formattedValue : JSVal
  image : JSVal
  images0_src : JSVal
  defaultArticle_images0_src : JSVal
  swatchesLink : JSVal
  link : JSVal
  deriving DecidableEq, Repr

/-- Lines 245-250: the candidate record built for one H&M item. -/
def hmCand (it : HMItem) : Candidate :=
  { title := jsOr it.title it.name
    price := jsOr (jsOr it.price it.whitePrice_formattedValue) it.redPrice_formattedValue
    image := jsOr (jsOr it.image it.images0_src) it.defaultArticle_images0_src
    link :=
      if truthy (jsOr it.swatchesLink it.link) then
        .str ("https://www2.hm.com" ++ jsToString (jsOr it.swatchesLink it.link))
      else .str "" }

/-- `scrapeHM` (search.js lines 227-262).  `fetch` stands for the page fetch
(rejecting on transport failure or HTTP ≥ 400); on success, `blocks` is the
list of successfully regex-extracted and `JSON.parse`d `"products"` arrays,
one per matching script element (parse failures skip a block via the inner
`catch`).  The `products.length >= MAX_RESULTS` break before each push makes
the pushed list exactly the first `MAX_RESULTS` items of the concatenation,
formatted; nulls count toward the cap and are dropped afterwards by
`filterValidProducts`. -/
def scrapeHM (fetch : Except String (List (List HMItem))) : List Product :=
  match fetch with
  | .error _ => []
  | .ok blocks =>
    filterValidProducts
      (((blocks.flatten).take MAX_RESULTS).map (fun it => formatProduct (hmCand it) "H&M" "hm"))

/-! ### Aggregation router and handler (search.js lines 399-459, `handler`) -/

/-- The settled value of one store's task in `searchPromises`
(lines 430-434): `then` wraps a normal return, `catch` wraps a rejection. -/
structure TaskOutcome where
  storeId : String
  results : List Product
  error : Option String
  deriving DecidableEq, Repr

def taskOutcome (storeId : String) (run : Except String (List Product)) : TaskOutcome :=
  match run with
  | .ok results => { storeId := storeId, results := results, error := none }
  | .error m => { storeId := storeId, results := [], error := some m }

/-- One entry of the response's `stores` array (lines 442-448). -/
structure StoreResult where
  id : String
  name : String
  results : List Product
  error : Option String
  count : ℕ
  deriving DecidableEq, Repr

def toStoreResult (t : TaskOutcome) : StoreResult :=
  { id := t.storeId
    name :=
      match STORE_CONFIG t.storeId with
      | some c => if c.name = "" then t.storeId else c.name
      | none => t.storeId
    results := t.results
    error := t.error
    count := if t.results.length = 0 then 0 else t.results.length }

/-- Lines 425-448: filter the requested stores to known ids, run each store's
task, and assemble the per-store results in request order.  `run` gives each
store's settled adapter outcome (an adapter return value or a rejection
message); `Promise.all` preserves the input order, so the assembly is a `map`. -/
def responseStores (stores : List String) (run : String → Except String (List Product)) :
    List StoreResult :=
  (stores.filter (fun id => (STORE_CONFIG id).isSome)).map
    (fun sid => toStoreResult (taskOutcome sid (run sid)))

/-- Line 424: `query.trim().replace(/[<>{}]/g, '').slice(0, 200)`.  The two
brace characters are written by code point (123 and 125). -/
def sanitizeQuery (q : String) : String :=
  String.mk (((trimBoth q.data).filter
    (fun c => !(c = '<' || c = '>' || c.toNat = 123 || c.toNat = 125))).take 200)

/-- The Search Response envelope (lines 438-449); the ISO timestamp is fresh
per request and modelled as a constant. -/
structure SearchResponse where
  query : String
  category : Option String
  timestamp : String
  stores : List StoreResult
  deriving Repr

def handlerResponse (query : String) (category : Option String) (stores : List String)
    (run : String → Except String (List Product)) : SearchResponse :=
  { query := sanitizeQuery query
    category := category
    timestamp := ""
    stores := responseStores stores run }

/-! ### Exception-explicit readings of the normalizers

These re-state `cleanPrice` / `cleanTitle` / `cleanImageUrl` in `Except`,
threading every JavaScript operation that can throw on an arbitrary input —
the `.trim()` method call (a `TypeError` on a non-string receiver) and the
`new URL` constructor — so that totality ("never throws, for any input value")
is a provable statement rather than an artifact of Lean types.  The initial
`!x || typeof x !== 'string'` guards are translated exactly as in the source. -/

def jsTrimE : JSVal → Except String String
  | .str s => .ok (String.mk (trimBoth s.data))
  | _ => .error "v.trim is not a function"

def cleanPriceE (v : JSVal) : Except String (Option String) :=
  if !truthy v || !isStrV v then .ok none
  else
    match jsTrimE v with
    | .error e => .error e
    | .ok cleaned => .ok (cleanPriceTail cleaned.data)

def cleanTitleE (v : JSVal) : Except String String :=
  if !truthy v || !isStrV v then .ok "Unknown Product"
  else
    match jsTrimE v with
    | .error e => .error e
    | .ok t => .ok (String.mk (truncTitle (stripPromo (collapseWs t.data))))

def cleanImageUrlE (v : JSVal) : Except String (Option String) :=
  if !truthy v || !isStrV v then .ok none
  else
    match jsTrimE v with
    | .error e => .error e
    | .ok t => .ok (cleanImageUrlCore t.data)

/-! ### Whitespace-normal form

`cleanTitle`'s output is whitespace-normal: every whitespace character is a
plain space, no two adjacent, none at either end.  These predicates and
closure lemmas drive the idempotence analysis of claim C4. -/

def wsOnlySpace (l : List Char) : Bool := l.all (fun c => !isJsWs c || c = ' ')

def noWsRun : List Char → Bool
  | [] => true
  | [_] => true
  | c1 :: c2 :: rest => !(isJsWs c1 && isJsWs c2) && noWsRun (c2 :: rest)

def noLeadWs : List Char → Bool
  | [] => true
  | c :: _ => !isJsWs c

def noTrailWs : List Char → Bool
  | [] => true
  | [c] => !isJsWs c
  | _ :: c :: cs => noTrailWs (c :: cs)

theorem wsOnlySpace_tail {c : Char} {l : List Char}
    (h : wsOnlySpace (c :: l) = true) : wsOnlySpace l = true := by
  simp only [wsOnlySpace, List.all_cons, Bool.and_eq_true] at h
  exact h.2

theorem noWsRun_tail {c : Char} {l : List Char}
    (h : noWsRun (c :: l) = true) : noWsRun l = true := by
  cases l with
  | nil => rfl
  | cons d ds =>
    simp only [noWsRun, Bool.and_eq_true] at h
    exact h.2

theorem noTrailWs_tail {c : Char} {l : List Char}
    (h : noTrailWs (c :: l) = true) : noTrailWs l = true := by
  cases l with
  | nil => rfl
  | cons d ds => exact h

theorem noTrailWs_cons {c : Char} {l : List Char} (hl : l ≠ []) :
    noTrailWs (c :: l) = noTrailWs l := by
  cases l with
  | nil => exact absurd rfl hl
  | cons d ds => rfl

theorem wsOnlySpace_dropWhile {p : Char → Bool} {l : List Char}
    (h : wsOnlySpace l = true) : wsOnlySpace (l.dropWhile p) = true := by
  induction l with
  | nil => exact h
  | cons c cs ih =>
    rw [List.dropWhile_cons]
    split
    · exact ih (wsOnlySpace_tail h)
    · exact h

theorem noWsRun_dropWhile {p : Char → Bool} {l : List Char}
    (h : noWsRun l = true) : noWsRun (l.dropWhile p) = true := by
  induction l with
  | nil => exact h
  | cons c cs ih =>
    rw [List.dropWhile_cons]
    split
    · exact ih (noWsRun_tail h)
    · exact h

theorem noTrailWs_dropWhile {p : Char → Bool} {l : List Char}
    (h : noTrailWs l = true) : noTrailWs (l.dropWhile p) = true := by
  induction l with
  | nil => exact h
  | cons c cs ih =>
    rw [List.dropWhile_cons]
    split
    · exact ih (noTrailWs_tail h)
    · exact h

theorem wsOnlySpace_suffix {s t : List Char}
    (h : wsOnlySpace (s ++ t) = true) : wsOnlySpace t = true := by
  induction s with
  | nil => exact h
  | cons c cs ih => exact ih (wsOnlySpace_tail h)

theorem noWsRun_suffix {s t : List Char}
    (h : noWsRun (s ++ t) = true) : noWsRun t = true := by
  induction s with
  | nil => exact h
  | cons c cs ih => exact ih (noWsRun_tail h)

theorem noTrailWs_suffix {s t : List Char}
    (h : noTrailWs (s ++ t) = true) : noTrailWs t = true := by
  induction s with
  | nil => exact h
  | cons c cs ih => exact ih (noTrailWs_tail h)

theorem noLeadWs_ltrim (l : List Char) : noLeadWs (ltrim l) = true := by
  induction l with
  | nil => rfl
  | cons c cs ih =>
    rw [ltrim, List.dropWhile_cons]
    split
    · exact ih
    · simp only [noLeadWs]
      simp_all

theorem ltrim_eq_self {l : List Char} (h : noLeadWs l = true) : ltrim l = l := by
  cases l with
  | nil => rfl
  | cons c cs =>
    have hc : isJsWs c = false := by simpa [noLeadWs] using h
    rw [ltrim, List.dropWhile_cons]
    simp [hc]

theorem rtrim_cons_of_nil {c : Char} {cs : List Char} (h : rtrim cs = []) :
    rtrim (c :: cs) = if isJsWs c then [] else [c] := by
  simp only [rtrim, h]

theorem rtrim_cons_of_cons {c x : Char} {cs xs : List Char} (h : rtrim cs = x :: xs) :
    rtrim (c :: cs) = c :: x :: xs := by
  simp only [rtrim, h]

theorem rtrim_cons_head {l : List Char} {x : Char} {xs : List Char}
    (h : rtrim l = x :: xs) : ∃ ys, l = x :: ys := by
  cases l with
  | nil => simp [rtrim] at h
  | cons c cs =>
    refine ⟨cs, ?_⟩
    cases hrt : rtrim cs with
    | nil =>
      rw [rtrim_cons_of_nil hrt] at h
      by_cases hw : isJsWs c = true
      · simp [hw] at h
      · simp [hw] at h
        simp [h.1]
    | cons y yy =>
      rw [rtrim_cons_of_cons hrt] at h
      simp at h
      simp [h.1]

theorem noTrailWs_rtrim (l : List Char) : noTrailWs (rtrim l) = true := by
  induction l with
  | nil => rfl
  | cons c cs ih =>
    cases hrt : rtrim cs with
    | nil =>
      rw [rtrim_cons_of_nil hrt]
      by_cases hw : isJsWs c = true
      · rw [if_pos hw]; rfl
      · rw [if_neg hw]; simpa [noTrailWs] using hw
    | cons x xs =>
      rw [rtrim_cons_of_cons hrt]
      show noTrailWs (x :: xs) = true
      rw [← hrt]
      exact ih

theorem noLeadWs_rtrim {l : List Char} (h : noLeadWs l = true) :
    noLeadWs (rtrim l) = true := by
  cases l with
  | nil => rfl
  | cons c cs =>
    cases hrt : rtrim cs with
    | nil =>
      rw [rtrim_cons_of_nil hrt]
      by_cases hw : isJsWs c = true
      · rw [if_pos hw]; rfl
      · rw [if_neg hw]; exact h
    | cons x xs =>
      rw [rtrim_cons_of_cons hrt]
      exact h

theorem wsOnlySpace_rtrim {l : List Char} (h : wsOnlySpace l = true) :
    wsOnlySpace (rtrim l) = true := by
  induction l with
  | nil => rfl
  | cons c cs ih =>
    simp only [wsOnlySpace, List.all_cons, Bool.and_eq_true] at h
    cases hrt : rtrim cs with
    | nil =>
      rw [rtrim_cons_of_nil hrt]
      by_cases hw : isJsWs c = true
      · rw [if_pos hw]; rfl
      · rw [if_neg hw]; simpa [wsOnlySpace] using h.1
    | cons x xs =>
      rw [rtrim_cons_of_cons hrt]
      have hr' := ih h.2
      rw [hrt] at hr'
      simp only [wsOnlySpace, List.all_cons, Bool.and_eq_true] at hr' ⊢
      exact ⟨h.1, hr'⟩

theorem noWsRun_rtrim {l : List Char} (h : noWsRun l = true) :
    noWsRun (rtrim l) = true := by
  induction l with
  | nil => rfl
  | cons c cs ih =>
    cases hrt : rtrim cs with
    | nil =>
      rw [rtrim_cons_of_nil hrt]
      by_cases hw : isJsWs c = true
      · rw [if_pos hw]; rfl
      · rw [if_neg hw]; rfl
    | cons x xs =>
      rw [rtrim_cons_of_cons hrt]
      obtain ⟨ys, hys⟩ := rtrim_cons_head hrt
      subst hys
      have h2 := ih (noWsRun_tail h)
      rw [hrt] at h2
      simp only [noWsRun, Bool.and_eq_true] at h h2 ⊢
      exact ⟨h.1, h2⟩

theorem rtrim_eq_self {l : List Char} (h : noTrailWs l = true) : rtrim l = l := by
  induction l with
  | nil => rfl
  | cons c cs ih =>
    cases cs with
    | nil =>
      have hc : isJsWs c = false := by simpa [noTrailWs] using h
      have h0 : rtrim ([] : List Char) = [] := rfl
      rw [rtrim_cons_of_nil h0, if_neg (by simp [hc])]
    | cons d ds =>
      have h' : noTrailWs (d :: ds) = true := h
      rw [rtrim_cons_of_cons (ih h')]

theorem trimBoth_eq_self {l : List Char} (h1 : noLeadWs l = true)
    (h2 : noTrailWs l = true) : trimBoth l = l := by
  rw [trimBoth, ltrim_eq_self h1, rtrim_eq_self h2]

theorem noLeadWs_trimBoth (l : List Char) : noLeadWs (trimBoth l) = true :=
  noLeadWs_rtrim (noLeadWs_ltrim l)

theorem noTrailWs_trimBoth (l : List Char) : noTrailWs (trimBoth l) = true :=
  noTrailWs_rtrim _

theorem wsOnlySpace_trimBoth {l : List Char} (h : wsOnlySpace l = true) :
    wsOnlySpace (trimBoth l) = true :=
  wsOnlySpace_rtrim (wsOnlySpace_dropWhile h)

theorem noWsRun_trimBoth {l : List Char} (h : noWsRun l = true) :
    noWsRun (trimBoth l) = true :=
  noWsRun_rtrim (noWsRun_dropWhile h)

theorem collapseWs_cons_cons (c d : Char) (ds : List Char) :
    collapseWs (c :: d :: ds) =
      if isJsWs c && isJsWs d then collapseWs (d :: ds)
      else (if isJsWs c then ' ' else c) :: collapseWs (d :: ds) := rfl

theorem isJsWs_space : isJsWs ' ' = true := by decide

theorem collapseWs_cons (c : Char) (cs : List Char) :
    ∃ t, collapseWs (c :: cs) = (if isJsWs c then ' ' else c) :: t := by
  induction cs generalizing c with
  | nil =>
    refine ⟨[], ?_⟩
    cases hw : isJsWs c <;> simp [collapseWs, hw]
  | cons d ds ih =>
    rw [collapseWs_cons_cons]
    by_cases hcd : (isJsWs c && isJsWs d) = true
    · rw [if_pos hcd]
      simp only [Bool.and_eq_true] at hcd
      obtain ⟨t, ht⟩ := ih d
      refine ⟨t, ?_⟩
      rw [ht, hcd.1, hcd.2]
      simp
    · rw [if_neg hcd]
      exact ⟨collapseWs (d :: ds), rfl⟩

theorem wsOnlySpace_collapseWs (l : List Char) : wsOnlySpace (collapseWs l) = true := by
  induction l with
  | nil => rfl
  | cons c cs ih =>
    cases cs with
    | nil =>
      cases hw : isJsWs c <;> simp [collapseWs, hw, wsOnlySpace]
    | cons d ds =>
      rw [collapseWs_cons_cons]
      by_cases hcd : (isJsWs c && isJsWs d) = true
      · rw [if_pos hcd]; exact ih
      · rw [if_neg hcd]
        simp only [wsOnlySpace, List.all_cons, Bool.and_eq_true]
        refine ⟨?_, by simpa [wsOnlySpace] using ih⟩
        by_cases hw : isJsWs c = true <;> simp [hw]

theorem noWsRun_cons_of_head {c : Char} {l : List Char} (hl : noWsRun l = true)
    (hc : ∀ x xs, l = x :: xs → (isJsWs c && isJsWs x) = false) :
    noWsRun (c :: l) = true := by
  cases l with
  | nil => rfl
  | cons x xs =>
    simp only [noWsRun, Bool.and_eq_true]
    exact ⟨by simp [hc x xs rfl], hl⟩

theorem noWsRun_collapseWs (l : List Char) : noWsRun (collapseWs l) = true := by
  induction l with
  | nil => rfl
  | cons c cs ih =>
    cases cs with
    | nil =>
      cases hw : isJsWs c <;> simp [collapseWs, hw] <;> rfl
    | cons d ds =>
      rw [collapseWs_cons_cons]
      obtain ⟨t, ht⟩ := collapseWs_cons d ds
      by_cases hcd : (isJsWs c && isJsWs d) = true
      · rw [if_pos hcd]; exact ih
      · rw [if_neg hcd]
        refine noWsRun_cons_of_head ih ?_
        intro x xs hx
        rw [ht] at hx
        cases hx
        by_cases hc : isJsWs c = true
        · have hd : isJsWs d = false := by
            cases hdd : isJsWs d
            · rfl
            · exact absurd (by rw [hc, hdd]; rfl) hcd
          simp [hc, hd, isJsWs_space]
        · have hc' : isJsWs c = false := by simpa using hc
          simp [hc']

theorem noLeadWs_collapseWs {l : List Char} (h : noLeadWs l = true) :
    noLeadWs (collapseWs l) = true := by
  cases l with
  | nil => rfl
  | cons c cs =>
    obtain ⟨t, ht⟩ := collapseWs_cons c cs
    rw [ht]
    have hc : isJsWs c = false := by simpa [noLeadWs] using h
    simp [noLeadWs, hc]

theorem noTrailWs_collapseWs {l : List Char} (h : noTrailWs l = true) :
    noTrailWs (collapseWs l) = true := by
  induction l with
  | nil => rfl
  | cons c cs ih =>
    cases cs with
    | nil =>
      have hc : isJsWs c = false := by simpa [noTrailWs] using h
      simp [collapseWs, hc, noTrailWs]
    | cons d ds =>
      have h' : noTrailWs (d :: ds) = true := h
      rw [collapseWs_cons_cons]
      obtain ⟨t, ht⟩ := collapseWs_cons d ds
      by_cases hcd : (isJsWs c && isJsWs d) = true
      · rw [if_pos hcd]
        exact ih h'
      · rw [if_neg hcd, ht, noTrailWs_cons (by simp), ← ht]
        exact ih h'

theorem collapseWs_eq_self {l : List Char} (h1 : wsOnlySpace l = true)
    (h2 : noWsRun l = true) : collapseWs l = l := by
  induction l with
  | nil => rfl
  | cons c cs ih =>
    have hc : isJsWs c = true → c = ' ' := by
      intro hw
      simp only [wsOnlySpace, List.all_cons, Bool.and_eq_true] at h1
      have h1c := h1.1
      simp [hw] at h1c
      exact h1c
    cases cs with
    | nil =>
      by_cases hw : isJsWs c = true
      · simp [collapseWs, hw, hc hw]
      · simp [collapseWs, hw]
    | cons d ds =>
      have hcd : (isJsWs c && isJsWs d) = false := by
        simp only [noWsRun, Bool.and_eq_true] at h2
        cases hb : (isJsWs c && isJsWs d)
        · rfl
        · have h21 := h2.1
          rw [hb] at h21
          simp at h21
      rw [collapseWs_cons_cons, if_neg (by simp [hcd]),
        ih (wsOnlySpace_tail h1) (noWsRun_tail h2)]
      by_cases hw : isJsWs c = true
      · simp [hw, hc hw]
      · simp [hw]

/-! ### Promotional-prefix and truncation lemmas -/

theorem promoRest?_append {l r : List Char} (h : promoRest? l = some r) :
    ∃ s, l = s ++ r := by
  simp only [promoRest?] at h
  cases h1 : ciStrip ['n', 'e', 'w'] l with
  | some r1 => rw [h1] at h; cases h; exact ciStrip_append h1
  | none =>
    rw [h1] at h
    cases h2 : ciStrip ['s', 'a', 'l', 'e'] l with
    | some r2 => rw [h2] at h; cases h; exact ciStrip_append h2
    | none =>
      rw [h2] at h
      cases h3 : ciStrip ['h', 'o', 't'] l with
      | some r3 => rw [h3] at h; cases h; exact ciStrip_append h3
      | none =>
        rw [h3] at h
        exact ciStrip_append h

theorem stripPromo_eq_self {l : List Char} (hp : promoRest? l = none)
    (h1 : noLeadWs l = true) (h2 : noTrailWs l = true) : stripPromo l = l := by
  rw [stripPromo, hp, trimBoth_eq_self h1 h2]

theorem stripPromo_props {l : List Char} (h1 : wsOnlySpace l = true)
    (h2 : noWsRun l = true) :
    wsOnlySpace (stripPromo l) = true ∧ noWsRun (stripPromo l) = true ∧
    noLeadWs (stripPromo l) = true ∧ noTrailWs (stripPromo l) = true := by
  rw [stripPromo]
  cases hp : promoRest? l with
  | none =>
    exact ⟨wsOnlySpace_trimBoth h1, noWsRun_trimBoth h2, noLeadWs_trimBoth l,
      noTrailWs_trimBoth l⟩
  | some r =>
    obtain ⟨s, hs⟩ := promoRest?_append hp
    subst hs
    have hr1 : wsOnlySpace r = true := wsOnlySpace_suffix h1
    have hr2 : noWsRun r = true := noWsRun_suffix h2
    have hd1 : wsOnlySpace (r.dropWhile isPromoPunct) = true := wsOnlySpace_dropWhile hr1
    have hd2 : noWsRun (r.dropWhile isPromoPunct) = true := noWsRun_dropWhile hr2
    exact ⟨wsOnlySpace_trimBoth hd1, noWsRun_trimBoth hd2, noLeadWs_trimBoth _,
      noTrailWs_trimBoth _⟩

theorem truncTitle_length_le (l : List Char) : (truncTitle l).length ≤ 120 := by
  rw [truncTitle]
  split
  · simp only [List.length_append, List.length_take, List.length_cons, List.length_nil]
    omega
  · omega

theorem truncTitle_eq_self {l : List Char} (h : l.length ≤ 120) : truncTitle l = l := by
  rw [truncTitle, if_neg (by omega)]

theorem wsOnlySpace_take {l : List Char} (n : ℕ) (h : wsOnlySpace l = true) :
    wsOnlySpace (l.take n) = true := by
  induction l generalizing n with
  | nil => simp [wsOnlySpace]
  | cons c cs ih =>
    cases n with
    | zero => rfl
    | succ m =>
      simp only [List.take_succ_cons]
      simp only [wsOnlySpace, List.all_cons, Bool.and_eq_true] at h ⊢
      exact ⟨h.1, ih m h.2⟩

theorem noWsRun_take {l : List Char} (n : ℕ) (h : noWsRun l = true) :
    noWsRun (l.take n) = true := by
  induction l generalizing n with
  | nil => simp [noWsRun]
  | cons c cs ih =>
    cases n with
    | zero => rfl
    | succ m =>
      simp only [List.take_succ_cons]
      cases cs with
      | nil => simp [List.take_nil]; rfl
      | cons d ds =>
        cases m with
        | zero => rfl
        | succ k =>
          simp only [List.take_succ_cons]
          simp only [noWsRun, Bool.and_eq_true] at h ⊢
          have := ih (k + 1) h.2
          simp only [List.take_succ_cons] at this
          exact ⟨h.1, this⟩

theorem noWsRun_append_dots {s : List Char} (h : noWsRun s = true) :
    noWsRun (s ++ ['.', '.', '.']) = true := by
  induction s with
  | nil => decide
  | cons c cs ih =>
    cases cs with
    | nil =>
      simp only [List.cons_append, List.nil_append]
      simp only [noWsRun, Bool.and_eq_true]
      refine ⟨?_, by decide⟩
      have hdot : isJsWs '.' = false := by decide
      simp [hdot]
    | cons d ds =>
      simp only [List.cons_append] at ih ⊢
      simp only [noWsRun, Bool.and_eq_true] at h ⊢
      exact ⟨h.1, ih h.2⟩

theorem noTrailWs_append_dots (s : List Char) :
    noTrailWs (s ++ ['.', '.', '.']) = true := by
  induction s with
  | nil => decide
  | cons c cs ih =>
    simp only [List.cons_append]
    rw [noTrailWs_cons (by simp)]
    exact ih

theorem noLeadWs_take {l : List Char} (n : ℕ) (h : noLeadWs l = true) :
    noLeadWs (l.take n) = true := by
  cases l with
  | nil => simp [noLeadWs]
  | cons c cs =>
    cases n with
    | zero => rfl
    | succ m => simpa [noLeadWs] using h

theorem noLeadWs_append_left {s t : List Char} (hs : s ≠ []) (h : noLeadWs s = true) :
    noLeadWs (s ++ t) = true := by
  cases s with
  | nil => exact absurd rfl hs
  | cons c cs => simpa [noLeadWs] using h

theorem truncTitle_props {l : List Char} (h1 : wsOnlySpace l = true)
    (h2 : noWsRun l = true) (h3 : noLeadWs l = true) (h4 : noTrailWs l = true) :
    wsOnlySpace (truncTitle l) = true ∧ noWsRun (truncTitle l) = true ∧
    noLeadWs (truncTitle l) = true ∧ noTrailWs (truncTitle l) = true := by
  rw [truncTitle]
  split
  · rename_i hlen
    refine ⟨?_, ?_, ?_, noTrailWs_append_dots _⟩
    · simp only [wsOnlySpace, List.all_append, Bool.and_eq_true]
      exact ⟨wsOnlySpace_take 117 h1, by decide⟩
    · exact noWsRun_append_dots (noWsRun_take 117 h2)
    · refine noLeadWs_append_left ?_ (noLeadWs_take 117 h3)
      have : l ≠ [] := by intro hl; subst hl; simp at hlen
      cases l with
      | nil => simp at hlen
      | cons c cs => simp [List.take_succ_cons]
  · exact ⟨h1, h2, h3, h4⟩

/-! ### Normal form of `cleanTitle` output -/

theorem cleanTitleStr_props (s : String) :
    wsOnlySpace (cleanTitleStr s).data = true ∧ noWsRun (cleanTitleStr s).data = true ∧
    noLeadWs (cleanTitleStr s).data = true ∧ noTrailWs (cleanTitleStr s).data = true := by
  rw [cleanTitleStr]
  split
  · decide
  · have c1 := wsOnlySpace_collapseWs (trimBoth s.data)
    have c2 := noWsRun_collapseWs (trimBoth s.data)
    obtain ⟨p1, p2, p3, p4⟩ := stripPromo_props c1 c2
    exact truncTitle_props p1 p2 p3 p4

theorem cleanTitleStr_length_le (s : String) : (cleanTitleStr s).data.length ≤ 120 := by
  rw [cleanTitleStr]
  split
  · decide
  · exact truncTitle_length_le _

/-! ### Bridge lemmas: the integer comparisons of `JNum` against the
rational order of its value -/

theorem pow10_eq (s : ℕ) : pow10 s = (10 : ℤ) ^ s := by
  induction s with
  | zero => rfl
  | succ n ih => rw [pow10, ih, pow_succ]; ring

theorem pow10Q_pos (s : ℕ) : (0 : ℚ) < (10 : ℚ) ^ s := by positivity

theorem jnPos_iff (v : JNum) : jnPos v = true ↔ 0 < v.toQ := by
  rw [jnPos, decide_eq_true_eq, JNum.toQ, lt_div_iff₀ (pow10Q_pos v.scale)]
  rw [zero_mul]
  exact_mod_cast Iff.rfl

theorem jnLt50000_iff (v : JNum) : jnLt50000 v = true ↔ v.toQ < 50000 := by
  rw [jnLt50000, decide_eq_true_eq, JNum.toQ, div_lt_iff₀ (pow10Q_pos v.scale), pow10_eq]
  constructor
  · intro h; exact_mod_cast h
  · intro h; exact_mod_cast h

theorem jnGt100_iff (v : JNum) : jnGt100 v = true ↔ 100 < v.toQ := by
  rw [jnGt100, decide_eq_true_eq, JNum.toQ, lt_div_iff₀ (pow10Q_pos v.scale), pow10_eq]
  constructor
  · intro h; exact_mod_cast h
  · intro h; exact_mod_cast h

theorem jnIsInt_iff (v : JNum) : jnIsInt v = true ↔ ∃ k : ℤ, v.toQ = (k : ℚ) := by
  rw [jnIsInt, decide_eq_true_eq, pow10_eq]
  constructor
  · intro h
    obtain ⟨k, hk⟩ := Int.dvd_of_emod_eq_zero h
    refine ⟨k, ?_⟩
    rw [JNum.toQ, hk]
    push_cast
    rw [mul_comm, mul_div_assoc, div_self (by positivity), mul_one]
  · rintro ⟨k, hk⟩
    rw [JNum.toQ] at hk
    have hq : (v.mant : ℚ) = (k : ℚ) * 10 ^ v.scale := by
      field_simp at hk
      exact hk
    have hz : v.mant = k * 10 ^ v.scale := by exact_mod_cast hq
    rw [hz]
    exact Int.mul_emod_left k _

theorem jnDiv100_toQ (v : JNum) : (jnDiv100 v).toQ = v.toQ / 100 := by
  rw [jnDiv100, JNum.toQ, JNum.toQ]
  show (v.mant : ℚ) / 10 ^ (v.scale + 2) = (v.mant : ℚ) / 10 ^ v.scale / 100
  rw [div_div, pow_add]
  norm_num

/-! ### Small facts shared by the claim proofs -/

theorem taskOutcome_storeId (sid : String) (run : Except String (List Product)) :
    (taskOutcome sid run).storeId = sid := by
  cases run <;> rfl

theorem matchPriceStr_ne_nil (m : List Char) : matchPriceStr m ≠ [] := by
  rw [matchPriceStr]
  split
  · rename_i hcond
    intro hnil
    rw [hnil] at hcond
    simp at hcond
  · simp

theorem cleanPrice_ne_empty {v : JSVal} {s : String} (h : cleanPrice v = some s) :
    s ≠ "" := by
  cases v with
  | str s0 =>
    simp only [cleanPrice] at h
    split at h
    · cases h
    · simp only [cleanPriceCore, cleanPriceTail] at h
      split at h
      · cases h
      · split at h
        · rename_i m hm
          simp only [priceFromMatch] at h
          split at h
          · split at h
            · cases h
              intro hs
              exact matchPriceStr_ne_nil m (congrArg String.data hs)
            · cases h
          · cases h
        · cases h
  | null => cases h
  | undef => cases h
  | num q => cases h
  | bool b => cases h
  | obj => cases h

/-- A sample fully-valid normalized product, used as witness data. -/
def sampleProduct : Product :=
  { id := ""
    store := "asos"
    storeName := "ASOS"
    title := "Red Dress"
    price := .str "$29.99"
    image := "https://cdn.example.com/a.jpg"
    link := .str "https://example.com/p" }

/-- The claim C1 witness scenario: one rejecting store, one store with
results, one store with an empty list. -/
def wRun : String → Except String (List Product) := fun sid =>
  if sid = "whitefox" then .error "boom"
  else if sid = "asos" then .ok [sampleProduct]
  else .ok []

/-! ### Claim theorems -/

/-- Claim C10: in every Store Result of the Search Response, the `count` field
equals the length of that store's `results` list — `count` is derived from
`results` (`results?.length || 0`), never an independent value. -/
theorem count_matches_results (stores : List String)
    (run : String → Except String (List Product)) :
    ∀ sr ∈ responseStores stores run, sr.count = sr.results.length := by
  intro sr hsr
  simp only [responseStores, List.mem_map] at hsr
  obtain ⟨sid, -, rfl⟩ := hsr
  simp only [toStoreResult]
  by_cases h : (taskOutcome sid (run sid)).results.length = 0
  · simp [h]
  · simp [h]

theorem count_matches_results_witness :
    (toStoreResult (taskOutcome "hm" (Except.ok [sampleProduct]))).count
      = (toStoreResult (taskOutcome "hm" (Except.ok [sampleProduct]))).results.length :=
  count_matches_results ["hm"] (fun _ => Except.ok [sampleProduct]) _ (by decide)

/-- Claim C1: for a request whose `stores` list contains only known store ids,
the response has exactly one Store Result per requested store, in request
order; a rejected task yields `{ results: [], error: message }` for that store
only, and an adapter return `r` yields exactly `{ results: r, error: null }` —
one store's outcome never changes another's. -/
theorem router_one_result_per_store (stores : List String)
    (run : String → Except String (List Product))
    (hknown : ∀ id ∈ stores, (STORE_CONFIG id).isSome = true) :
    (responseStores stores run).map StoreResult.id = stores
    ∧ ∀ sr ∈ responseStores stores run,
        (∀ m, run sr.id = .error m → sr.results = [] ∧ sr.error = some m)
        ∧ (∀ r, run sr.id = .ok r → sr.results = r ∧ sr.error = none) := by
  have hfilter : stores.filter (fun id => (STORE_CONFIG id).isSome) = stores :=
    List.filter_eq_self.mpr hknown
  constructor
  · rw [responseStores, hfilter, List.map_map]
    have : (StoreResult.id ∘ fun sid => toStoreResult (taskOutcome sid (run sid)))
        = fun sid => sid := by
      funext sid
      simp only [Function.comp_apply, toStoreResult, taskOutcome_storeId]
    rw [this]
    simp
  · intro sr hsr
    simp only [responseStores, hfilter, List.mem_map] at hsr
    obtain ⟨sid, -, rfl⟩ := hsr
    have hid : (toStoreResult (taskOutcome sid (run sid))).id = sid := by
      simp [toStoreResult, taskOutcome_storeId]
    rw [hid]
    constructor
    · intro m hm
      simp [toStoreResult, taskOutcome, hm]
    · intro r hr
      simp [toStoreResult, taskOutcome, hr]

theorem router_one_result_per_store_witness :
    (responseStores ["whitefox", "asos", "hm"] wRun).map StoreResult.id
        = ["whitefox", "asos", "hm"]
    ∧ ((toStoreResult (taskOutcome "whitefox" (wRun "whitefox"))).results = []
        ∧ (toStoreResult (taskOutcome "whitefox" (wRun "whitefox"))).error = some "boom")
    ∧ ((toStoreResult (taskOutcome "asos" (wRun "asos"))).results = [sampleProduct]
        ∧ (toStoreResult (taskOutcome "asos" (wRun "asos"))).error = none)
    ∧ ((toStoreResult (taskOutcome "hm" (wRun "hm"))).results = []
        ∧ (toStoreResult (taskOutcome "hm" (wRun "hm"))).error = none) := by
  have h := router_one_result_per_store ["whitefox", "asos", "hm"] wRun (by decide)
  refine ⟨h.1, ?_, ?_, ?_⟩
  · exact (h.2 (toStoreResult (taskOutcome "whitefox" (wRun "whitefox")))
      (by decide)).1 "boom" (by rfl)
  · exact (h.2 (toStoreResult (taskOutcome "asos" (wRun "asos")))
      (by decide)).2 [sampleProduct] (by rfl)
  · exact (h.2 (toStoreResult (taskOutcome "hm" (wRun "hm")))
      (by decide)).2 [] (by rfl)

/-- Claim C2 counterexample: a Tier 1 store whose transport fails with a
timeout produces a Store Result whose `error` field is `null` — not the
non-null error string the claim asserts — because `scrapeShopifyStore` catches
the rejection internally and resolves with `[]`. -/
theorem transport_error_not_surfaced_cex :
    (toStoreResult (taskOutcome "whitefox"
        (Except.ok (scrapeShopifyStore "whitefox"
          (Except.error "timeout of 15000ms exceeded"))))).error = none := by
  decide

/-- Claim C2 as amended: a transport failure (timeout, DNS, connection
refused, or HTTP status ≥ 400 — any rejection of `fetchJSON`) is caught at the
adapter boundary and is never raised to the caller of the Router, but it is
not surfaced either: the store's Store Result is `{ results: [], error: null }`. -/
theorem transport_error_swallowed (sid msg : String)
    (t : Except String (ℕ × Except String (List ShopifyItem)))
    (hfail : fetchJSON t = .error msg) :
    scrapeShopifyStore sid t = []
    ∧ (toStoreResult (taskOutcome sid (Except.ok (scrapeShopifyStore sid t)))).results = []
    ∧ (toStoreResult (taskOutcome sid (Except.ok (scrapeShopifyStore sid t)))).error = none := by
  have h1 : scrapeShopifyStore sid t = [] := by
    rw [scrapeShopifyStore, hfail]
    cases STORE_CONFIG sid with
    | none => rfl
    | some config =>
      cases hd : config.domain with
      | none => simp [hd]
      | some dom => simp [hd]
  exact ⟨h1, by simp [h1, taskOutcome, toStoreResult], by simp [h1, taskOutcome, toStoreResult]⟩

theorem transport_error_swallowed_witness :
    scrapeShopifyStore "whitefox" (Except.error "connect ECONNREFUSED") = []
    ∧ (toStoreResult (taskOutcome "whitefox"
        (Except.ok (scrapeShopifyStore "whitefox" (Except.error "connect ECONNREFUSED"))))).results = []
    ∧ (toStoreResult (taskOutcome "whitefox"
        (Except.ok (scrapeShopifyStore "whitefox" (Except.error "connect ECONNREFUSED"))))).error = none :=
  transport_error_swallowed "whitefox" "connect ECONNREFUSED" _ rfl

/-- Claim C3 counterexample: `formatProduct`'s price expression
`cleanPrice(data.price) || data.price || 'See price'` keeps the raw
unnormalized price text when the normalizer fails on a truthy raw value:
for the candidate price `"Call for price"` the produced Product carries the
raw string itself, even though `cleanPrice` returned `null`. -/
theorem price_raw_fallback_cex :
    (formatProduct
        { title := .str "Some Dress", price := .str "Call for price",
          image := .undef, link := .str "https://example.com/p" }
        "Store" "sid").map (fun p => p.price) = some (.str "Call for price")
    ∧ cleanPrice (.str "Call for price") = none := by
  constructor
  · rfl
  · decide

/-- Claim C3 as amended: the `price` of every formatted Product is the
normalizer's output (a nonempty currency-prefixed string) when normalization
succeeds, otherwise the raw price value itself whenever that value is truthy,
and the sentinel `"See price"` only when the raw value is falsy too. -/
theorem price_field_cases (c : Candidate) (sn sid : String) (p : Product)
    (h : formatProduct c sn sid = some p) :
    (∃ s, cleanPrice c.price = some s ∧ s ≠ "" ∧ p.price = .str s)
    ∨ (cleanPrice c.price = none ∧ truthy c.price = true ∧ p.price = c.price)
    ∨ (cleanPrice c.price = none ∧ truthy c.price = false ∧ p.price = .str "See price") := by
  rw [formatProduct] at h
  split at h
  · cases h
  · have hp : p.price
        = jsOr (jsOr (optStrVal (cleanPrice c.price)) c.price) (.str "See price") := by
      cases h
      rfl
    cases hcp : cleanPrice c.price with
    | some s =>
      left
      have hs : s ≠ "" := cleanPrice_ne_empty hcp
      refine ⟨s, rfl, hs, ?_⟩
      have ht : truthy (.str s) = true := by simpa [truthy] using hs
      have h1 : jsOr (JSVal.str s) c.price = .str s := by rw [jsOr, if_pos ht]
      rw [hp, hcp]
      simp only [optStrVal]
      rw [h1, jsOr, if_pos ht]
    | none =>
      have h0 : jsOr (optStrVal (cleanPrice c.price)) c.price = c.price := by
        rw [hcp]
        simp [optStrVal, jsOr, truthy]
      cases htr : truthy c.price with
      | true =>
        right; left
        refine ⟨by simp [hcp], by simp [htr], ?_⟩
        rw [hp, h0, jsOr, if_pos htr]
      | false =>
        right; right
        refine ⟨by simp [hcp], by simp [htr], ?_⟩
        rw [hp, h0, jsOr, if_neg (by simp [htr])]

theorem price_field_cases_witness :
    (∃ s, cleanPrice (JSVal.str "$29.99") = some s ∧ s ≠ ""
        ∧ sampleProduct.price = JSVal.str s)
    ∨ (cleanPrice (JSVal.str "$29.99") = none
        ∧ truthy (JSVal.str "$29.99") = true ∧ sampleProduct.price = JSVal.str "$29.99")
    ∨ (cleanPrice (JSVal.str "$29.99") = none
        ∧ truthy (JSVal.str "$29.99") = false ∧ sampleProduct.price = JSVal.str "See price") :=
  price_field_cases
    { title := .str "Red Dress", price := .str "$29.99",
      image := .str "https://cdn.example.com/a.jpg", link := .str "https://example.com/p" }
    "ASOS" "asos" sampleProduct (by decide)

/-- Claim C5: each field normalizer is total — for every JavaScript value of
any shape (null, undefined, number, boolean, object, or arbitrary string) the
exception-explicit reading returns normally (never throws), and its value is
exactly the pure normalizer's result: `null`/a cleaned string for
`cleanPrice`/`cleanImageUrl`, and a string (sentinel on malformed input) for
`cleanTitle`. -/
theorem normalizers_total (v : JSVal) :
    cleanPriceE v = .ok (cleanPrice v)
    ∧ cleanTitleE v = .ok (cleanTitle v)
    ∧ cleanImageUrlE v = .ok (cleanImageUrl v) := by
  cases v with
  | str s =>
    by_cases hs : s = ""
    · subst hs
      refine ⟨?_, ?_, ?_⟩ <;> rfl
    · have ht : truthy (.str s) = true := by simpa [truthy] using hs
      refine ⟨?_, ?_, ?_⟩
      · simp only [cleanPriceE, ht, isStrV, Bool.not_true, Bool.false_or, Bool.or_self,
          Bool.false_eq_true, if_false, jsTrimE, cleanPrice, cleanPriceCore, hs]
      · simp only [cleanTitleE, ht, isStrV, Bool.not_true, Bool.false_or, Bool.or_self,
          if_false, jsTrimE, cleanTitle, cleanTitleStr, hs]
        rfl
      · simp only [cleanImageUrlE, ht, isStrV, Bool.not_true, Bool.false_or, Bool.or_self,
          if_false, jsTrimE, cleanImageUrl, hs]
        rfl
  | null => exact ⟨rfl, rfl, rfl⟩
  | undef => exact ⟨rfl, rfl, rfl⟩
  | num q =>
    refine ⟨?_, ?_, ?_⟩ <;> simp [cleanPriceE, cleanTitleE, cleanImageUrlE, isStrV,
      cleanPrice, cleanTitle, cleanImageUrl]
  | bool b =>
    refine ⟨?_, ?_, ?_⟩ <;> cases b <;> rfl
  | obj => exact ⟨rfl, rfl, rfl⟩

/-- Claim C6: for every input string whose preprocessed form contains no run
matching the numeric price pattern `[\$£€]?\s*[\d,]+\.?\d*`, `cleanPrice`
returns `null`; and for every input whose extracted numeric value `v`
satisfies `v ≤ 0` or `v ≥ 50000`, `cleanPrice` also returns `null` — never
`0` (the return type is a string option) and never a throw (claim C5). -/
theorem cleanPrice_rejects (s : String) :
    (findPriceMatch (pricePre (trimBoth s.data)) = none → cleanPrice (.str s) = none)
    ∧ (∀ m v, findPriceMatch (pricePre (trimBoth s.data)) = some m →
        matchNumVal m = some v → (v.toQ ≤ 0 ∨ 50000 ≤ v.toQ) →
        cleanPrice (.str s) = none) := by
  constructor
  · intro hnone
    simp only [cleanPrice]
    split
    · rfl
    · simp only [cleanPriceCore, cleanPriceTail]
      split
      · rfl
      · rw [hnone]
  · intro m v hm hv hbad
    simp only [cleanPrice]
    split
    · rfl
    · simp only [cleanPriceCore, cleanPriceTail]
      split
      · rfl
      · rw [hm]
        simp only [priceFromMatch, hv]
        rw [if_neg ?_]
        intro hcond
        simp only [Bool.and_eq_true] at hcond
        rcases hbad with hb | hb
        · exact absurd ((jnPos_iff v).mp hcond.1) (not_lt.mpr hb)
        · exact absurd ((jnLt50000_iff v).mp hcond.2) (not_lt.mpr hb)

theorem cleanPrice_rejects_witness :
    cleanPrice (.str "Call for price") = none ∧ cleanPrice (.str "$0") = none := by
  constructor
  · exact (cleanPrice_rejects "Call for price").1 (by decide)
  · exact (cleanPrice_rejects "$0").2 ['$', '0'] ⟨0, 0⟩ (by decide) (by decide)
      (Or.inl (by norm_num [JNum.toQ]))

/-- Claim C7: in the Tier 1 (Shopify) price mapping, a raw price whose parsed
numeric value is a positive integer greater than 100 and whose string form
contains no decimal point is treated as integer cents and divided by 100
(`jnDiv100`, shown to be exact division of the rational value); any other
positive parse is treated as dollars.  In particular the raw number `150` maps
to `"$1.50"` while the raw string `"150.00"` maps to `"$150.00"`. -/
theorem shopify_cents_heuristic :
    (∀ p : ShopifyItem, isNullish (shopifyRawPrice p) = false →
      ∀ nv, jsParseFloat (jsToString (shopifyRawPrice p)).data = some nv → 0 < nv.toQ →
        (((∃ k : ℤ, nv.toQ = (k : ℚ)) ∧ 100 < nv.toQ
            ∧ (jsToString (shopifyRawPrice p)).data.contains '.' = false) →
          shopifyPriceOf p = "$" ++ toFixed2 (jnDiv100 nv)
          ∧ (jnDiv100 nv).toQ = nv.toQ / 100)
        ∧ (¬((∃ k : ℤ, nv.toQ = (k : ℚ)) ∧ 100 < nv.toQ
            ∧ (jsToString (shopifyRawPrice p)).data.contains '.' = false) →
          shopifyPriceOf p = "$" ++ toFixed2 nv))
    ∧ (∀ p : ShopifyItem, p.price = .num ⟨150, 0⟩ → shopifyPriceOf p = "$1.50")
    ∧ (∀ p : ShopifyItem, p.price = .str "150.00" → shopifyPriceOf p = "$150.00") := by
  refine ⟨?_, ?_, ?_⟩
  · intro p hraw nv hparse hpos
    have hp' : jnPos nv = true := (jnPos_iff nv).mpr hpos
    constructor
    · rintro ⟨hint, h100, hdot⟩
      have hi : jnIsInt nv = true := (jnIsInt_iff nv).mpr hint
      have hg : jnGt100 nv = true := (jnGt100_iff nv).mpr h100
      refine ⟨?_, jnDiv100_toQ nv⟩
      simp only [shopifyPriceOf, hraw, Bool.false_eq_true, if_false, hparse, hp', if_true,
        hi, hg, hdot, Bool.not_false, Bool.and_self, Bool.and_true, Bool.true_and]
    · intro hno
      have hfalse : (jnIsInt nv && jnGt100 nv
          && !(jsToString (shopifyRawPrice p)).data.contains '.') = false := by
        cases hb : (jnIsInt nv && jnGt100 nv
            && !(jsToString (shopifyRawPrice p)).data.contains '.') with
        | false => rfl
        | true =>
          simp only [Bool.and_eq_true, Bool.not_eq_true'] at hb
          exact absurd ⟨(jnIsInt_iff nv).mp hb.1.1, (jnGt100_iff nv).mp hb.1.2, hb.2⟩ hno
      simp only [shopifyPriceOf, hraw, Bool.false_eq_true, if_false, hparse, hp', if_true,
        hfalse, Bool.false_eq_true]
  · intro p hp
    have hr : shopifyRawPrice p = .num ⟨150, 0⟩ := by
      simp [shopifyRawPrice, hp, jsCoalesce]
    simp only [shopifyPriceOf, hr]
    decide
  · intro p hp
    have hr : shopifyRawPrice p = .str "150.00" := by
      simp [shopifyRawPrice, hp, jsCoalesce]
    simp only [shopifyPriceOf, hr]
    decide

/-- Concrete Shopify items for the C7 and C9 witnesses. -/
def wItem150 : ShopifyItem :=
  { title := .str "X", price := .num ⟨150, 0⟩, price_min := .null, image := .null,
    featured_image := .missing, url := .str "/products/x" }

def wItem150s : ShopifyItem :=
  { title := .str "X", price := .str "150.00", price_min := .null, image := .null,
    featured_image := .missing, url := .str "/products/x" }

theorem shopify_cents_heuristic_witness :
    shopifyPriceOf wItem150 = "$1.50" ∧ shopifyPriceOf wItem150s = "$150.00" :=
  ⟨shopify_cents_heuristic.2.1 wItem150 rfl, shopify_cents_heuristic.2.2 wItem150s rfl⟩

/-- The Product kept from one Option-valued formatter result, as
`filterValidProducts` keeps it. -/
theorem mem_filterValidProducts {ops : List (Option Product)} {p : Product}
    (h : p ∈ filterValidProducts ops) :
    p.title ≠ "Unknown Product" ∧ p.link ≠ .str "#" := by
  simp only [filterValidProducts, List.mem_filterMap] at h
  obtain ⟨op, -, hop⟩ := h
  cases op with
  | none => cases hop
  | some q =>
    have hop' : validOne q = some p := hop
    rw [validOne] at hop'
    split at hop'
    · rename_i hcond
      cases hop'
      exact ⟨hcond.2.1, hcond.2.2.2⟩
    · cases hop'

/-- Evaluation equations for `scrapeShopifyStore`, by store-configuration
shape. -/
theorem scrapeShopifyStore_no_config {sid : String}
    (t : Except String (ℕ × Except String (List ShopifyItem)))
    (hc : STORE_CONFIG sid = none) : scrapeShopifyStore sid t = [] := by
  rw [scrapeShopifyStore, hc]

theorem scrapeShopifyStore_no_domain {sid : String} {config : StoreConfig}
    (t : Except String (ℕ × Except String (List ShopifyItem)))
    (hc : STORE_CONFIG sid = some config) (hd : config.domain = none) :
    scrapeShopifyStore sid t = [] := by
  rw [scrapeShopifyStore, hc]
  simp only [hd]

theorem scrapeShopifyStore_eq {sid : String} {config : StoreConfig} {dom : String}
    (t : Except String (ℕ × Except String (List ShopifyItem)))
    (hc : STORE_CONFIG sid = some config) (hd : config.domain = some dom) :
    scrapeShopifyStore sid t =
      match fetchJSON t with
      | .error _ => []
      | .ok products =>
        if 0 < products.length then
          match exceptMapList
              (fun p => (shopifyItemToCand dom p).map
                (fun c => formatProduct c config.name sid))
              (products.take MAX_RESULTS) with
          | .ok formatted => filterValidProducts formatted
          | .error _ => []
        else [] := by
  rw [scrapeShopifyStore, hc]
  simp only [hd]

theorem scrapeShopifyStore_fetch_error {sid : String} {config : StoreConfig}
    {dom : String} {e : String}
    (t : Except String (ℕ × Except String (List ShopifyItem)))
    (hc : STORE_CONFIG sid = some config) (hd : config.domain = some dom)
    (hf : fetchJSON t = .error e) : scrapeShopifyStore sid t = [] := by
  rw [scrapeShopifyStore_eq t hc hd, hf]

theorem scrapeShopifyStore_fetch_ok {sid : String} {config : StoreConfig}
    {dom : String} {products : List ShopifyItem}
    (t : Except String (ℕ × Except String (List ShopifyItem)))
    (hc : STORE_CONFIG sid = some config) (hd : config.domain = some dom)
    (hf : fetchJSON t = .ok products) :
    scrapeShopifyStore sid t =
      if 0 < products.length then
        match exceptMapList
            (fun p => (shopifyItemToCand dom p).map
              (fun c => formatProduct c config.name sid))
            (products.take MAX_RESULTS) with
        | .ok formatted => filterValidProducts formatted
        | .error _ => []
      else [] := by
  rw [scrapeShopifyStore_eq t hc hd, hf]

/-- Claim C8: every Product in the `results` list of any Store Result of the
final Search Response has a title other than `"Unknown Product"` and a link
other than `"#"`: the validity filter drops sentinel-carrying records, every
modelled adapter returns only `filterValidProducts` images (or `[]`, which is
such an image), and the router passes adapter results through unchanged. -/
theorem valid_products_no_sentinels :
    (∀ ops : List (Option Product), ∀ p ∈ filterValidProducts ops,
        p.title ≠ "Unknown Product" ∧ p.link ≠ .str "#")
    ∧ (∀ sid t, ∃ qs, scrapeShopifyStore sid t = filterValidProducts qs)
    ∧ (∀ f, ∃ qs, scrapeHM f = filterValidProducts qs)
    ∧ (∀ stores run,
        (∀ sid r, run sid = Except.ok r → ∃ qs, r = filterValidProducts qs) →
        ∀ sr ∈ responseStores stores run, ∀ p ∈ sr.results,
          p.title ≠ "Unknown Product" ∧ p.link ≠ .str "#") := by
  have part1 : ∀ ops : List (Option Product), ∀ p ∈ filterValidProducts ops,
      p.title ≠ "Unknown Product" ∧ p.link ≠ .str "#" :=
    fun _ _ h => mem_filterValidProducts h
  refine ⟨part1, ?_, ?_, ?_⟩
  · intro sid t
    cases hc : STORE_CONFIG sid with
    | none => exact ⟨[], scrapeShopifyStore_no_config t hc⟩
    | some config =>
      cases hd : config.domain with
      | none => exact ⟨[], scrapeShopifyStore_no_domain t hc hd⟩
      | some dom =>
        cases hf : fetchJSON t with
        | error e => exact ⟨[], scrapeShopifyStore_fetch_error t hc hd hf⟩
        | ok products =>
          rw [scrapeShopifyStore_fetch_ok t hc hd hf]
          split
          · split
            · rename_i formatted hmap
              exact ⟨formatted, rfl⟩
            · exact ⟨[], rfl⟩
          · exact ⟨[], rfl⟩
  · intro f
    cases f with
    | error e => exact ⟨[], rfl⟩
    | ok blocks =>
      exact ⟨((blocks.flatten).take MAX_RESULTS).map
        (fun it => formatProduct (hmCand it) "H&M" "hm"), rfl⟩
  · intro stores run hrun sr hsr p hp
    simp only [responseStores, List.mem_map] at hsr
    obtain ⟨sid, -, rfl⟩ := hsr
    cases hr : run sid with
    | error m =>
      simp only [toStoreResult, taskOutcome, hr] at hp
      cases hp
    | ok r =>
      simp only [toStoreResult, taskOutcome, hr] at hp
      obtain ⟨qs, hqs⟩ := hrun sid r hr
      subst hqs
      exact part1 qs p hp

theorem valid_products_no_sentinels_witness :
    sampleProduct.title ≠ "Unknown Product" ∧ sampleProduct.link ≠ .str "#" :=
  valid_products_no_sentinels.1 [some sampleProduct] sampleProduct (by decide)

/-! ### Order preservation and result cap (claim C9) -/

/-- The retained normalized product of one upstream Shopify item: the item's
candidate mapping, formatter and validity filter, or `none` if the item is
dropped (or its mapping throws). -/
def shopifyItemProduct (domain name sid : String) (p : ShopifyItem) : Option Product :=
  match shopifyItemToCand domain p with
  | .ok c => (formatProduct c name sid).bind validOne
  | .error _ => none

/-- The retained normalized product of one upstream H&M item. -/
def hmItemProduct (it : HMItem) : Option Product :=
  (formatProduct (hmCand it) "H&M" "hm").bind validOne

theorem filterValid_exceptMap {α : Type} {f : α → Except String (Option Product)}
    : ∀ {l : List α} {bs : List (Option Product)}, exceptMapList f l = .ok bs →
      filterValidProducts bs
        = l.filterMap (fun a =>
            match f a with
            | .ok op => op.bind validOne
            | .error _ => none) := by
  intro l
  induction l with
  | nil =>
    intro bs h
    simp only [exceptMapList] at h
    cases h
    rfl
  | cons a as ih =>
    intro bs h
    simp only [exceptMapList] at h
    cases hfa : f a with
    | error e => rw [hfa] at h; cases h
    | ok b =>
      rw [hfa] at h
      cases hrest : exceptMapList f as with
      | error e => rw [hrest] at h; cases h
      | ok bs' =>
        rw [hrest] at h
        cases h
        simp only [List.filterMap_cons, hfa]
        cases hb : b.bind validOne with
        | none =>
          simp only [filterValidProducts, List.filterMap_cons, hb]
          exact ih hrest
        | some q =>
          simp only [filterValidProducts, List.filterMap_cons, hb]
          rw [← filterValidProducts]
          rw [ih hrest]

theorem filterValid_length {ops : List (Option Product)} :
    (filterValidProducts ops).length ≤ ops.length :=
  List.length_filterMap_le _ ops

theorem exceptMapList_length {α : Type} {f : α → Except String (Option Product)}
    : ∀ {l : List α} {bs : List (Option Product)}, exceptMapList f l = .ok bs →
      bs.length = l.length := by
  intro l
  induction l with
  | nil => intro bs h; simp only [exceptMapList] at h; cases h; rfl
  | cons a as ih =>
    intro bs h
    simp only [exceptMapList] at h
    cases hfa : f a with
    | error e => rw [hfa] at h; cases h
    | ok b =>
      rw [hfa] at h
      cases hrest : exceptMapList f as with
      | error e => rw [hrest] at h; cases h
      | ok bs' =>
        rw [hrest] at h
        cases h
        simp [ih hrest]

/-- Claim C9: within each store, the Product list an adapter returns contains
at most `MAX_RESULTS = 12` products and is a subsequence of the per-item
normalized stream of the upstream response — i.e. it preserves the upstream
source's native item order (for the Tier 1 adapter and the H&M adapter the
claim cites). -/
theorem adapter_order_and_cap :
    (∀ sid t, (scrapeShopifyStore sid t).length ≤ MAX_RESULTS
      ∧ ∀ config dom ps, STORE_CONFIG sid = some config → config.domain = some dom →
          fetchJSON t = Except.ok ps →
          (scrapeShopifyStore sid t).Sublist
            (ps.filterMap (shopifyItemProduct dom config.name sid)))
    ∧ (∀ f, (scrapeHM f).length ≤ MAX_RESULTS
      ∧ ∀ blocks, f = Except.ok blocks →
          (scrapeHM f).Sublist ((blocks.flatten).filterMap hmItemProduct)) := by
  constructor
  · intro sid t
    constructor
    · cases hc : STORE_CONFIG sid with
      | none => rw [scrapeShopifyStore_no_config t hc]; simp
      | some config =>
        cases hd : config.domain with
        | none => rw [scrapeShopifyStore_no_domain t hc hd]; simp
        | some dom =>
          cases hf : fetchJSON t with
          | error e => rw [scrapeShopifyStore_fetch_error t hc hd hf]; simp
          | ok products =>
            rw [scrapeShopifyStore_fetch_ok t hc hd hf]
            split
            · split
              · rename_i formatted hmap
                calc (filterValidProducts formatted).length
                    ≤ formatted.length := filterValid_length
                  _ = (products.take MAX_RESULTS).length := exceptMapList_length hmap
                  _ ≤ MAX_RESULTS := by simp
              · simp
            · simp
    · intro config dom ps hconfig hdom hfetch
      rw [scrapeShopifyStore_fetch_ok t hconfig hdom hfetch]
      split
      · split
        · rename_i formatted hmap
          rw [filterValid_exceptMap hmap]
          have heq : (fun p => match
                (shopifyItemToCand dom p).map (fun c => formatProduct c config.name sid) with
              | .ok op => op.bind validOne
              | .error _ => none) = shopifyItemProduct dom config.name sid := by
            funext p
            rw [shopifyItemProduct]
            cases shopifyItemToCand dom p with
            | ok c => rfl
            | error e => rfl
          rw [heq]
          exact (List.take_sublist MAX_RESULTS ps).filterMap _
        · exact List.nil_sublist _
      · exact List.nil_sublist _
  · intro f
    constructor
    · cases f with
      | error e => simp [scrapeHM]
      | ok blocks =>
        show (filterValidProducts (((blocks.flatten).take MAX_RESULTS).map
            (fun it => formatProduct (hmCand it) "H&M" "hm"))).length ≤ MAX_RESULTS
        calc (filterValidProducts (((blocks.flatten).take MAX_RESULTS).map
              (fun it => formatProduct (hmCand it) "H&M" "hm"))).length
            ≤ (((blocks.flatten).take MAX_RESULTS).map
              (fun it => formatProduct (hmCand it) "H&M" "hm")).length := filterValid_length
          _ ≤ MAX_RESULTS := by simp
    · intro blocks hblocks
      subst hblocks
      show (filterValidProducts (((blocks.flatten).take MAX_RESULTS).map
          (fun it => formatProduct (hmCand it) "H&M" "hm"))).Sublist
        ((blocks.flatten).filterMap hmItemProduct)
      rw [filterValidProducts, List.filterMap_map]
      have heq : ((fun op => op.bind validOne)
            ∘ fun it => formatProduct (hmCand it) "H&M" "hm") = hmItemProduct := by
        funext it
        rfl
      rw [heq]
      exact (List.take_sublist MAX_RESULTS blocks.flatten).filterMap _

/-- A Shopify transport success carrying two items, for the C9 witness. -/
def wTransport : Except String (ℕ × Except String (List ShopifyItem)) :=
  .ok (200, .ok [wItem150, wItem150s])

theorem adapter_order_and_cap_witness :
    (scrapeShopifyStore "whitefox" wTransport).length ≤ MAX_RESULTS
    ∧ (scrapeShopifyStore "whitefox" wTransport).Sublist
        ([wItem150, wItem150s].filterMap
          (shopifyItemProduct "www.whitefoxboutique.com" "White Fox" "whitefox")) :=
  ⟨(adapter_order_and_cap.1 "whitefox" wTransport).1,
    (adapter_order_and_cap.1 "whitefox" wTransport).2
      { name := "White Fox", domain := some "www.whitefoxboutique.com" }
      "www.whitefoxboutique.com" [wItem150, wItem150s] rfl rfl rfl⟩

/-- Claim C4 counterexample: title normalization is not idempotent.  The
promotional-prefix regex is anchored at the start of the string, so each pass
strips at most one prefix: one pass turns `"new sale dress"` into
`"sale dress"`, and a second pass strips again, producing `"dress"`. -/
theorem cleanTitle_not_idempotent_cex :
    cleanTitleStr (cleanTitleStr "new sale dress") ≠ cleanTitleStr "new sale dress"
    ∧ cleanTitleStr "new sale dress" = "sale dress"
    ∧ cleanTitleStr (cleanTitleStr "new sale dress") = "dress" := by
  refine ⟨?_, by decide, by decide⟩
  decide

/-- Claim C4 as amended: `cleanTitle` is idempotent on every string whose
normalized form is nonempty and does not itself begin with a promotional
prefix (`new`/`sale`/`hot`/`best seller`, case-insensitively); moreover the
output never exceeds the 120-character cap, so a second pass never truncates
an already-normalized title again. -/
theorem cleanTitle_idempotent_on_stable (t : String) :
    (cleanTitleStr t).data.length ≤ 120
    ∧ (cleanTitleStr t ≠ "" → promoRest? (cleanTitleStr t).data = none →
        cleanTitleStr (cleanTitleStr t) = cleanTitleStr t) := by
  refine ⟨cleanTitleStr_length_le t, ?_⟩
  intro hne hpromo
  obtain ⟨h1, h2, h3, h4⟩ := cleanTitleStr_props t
  rw [cleanTitleStr, if_neg hne]
  rw [trimBoth_eq_self h3 h4, collapseWs_eq_self h1 h2,
    stripPromo_eq_self hpromo h3 h4,
    truncTitle_eq_self (cleanTitleStr_length_le t)]

theorem cleanTitle_idempotent_on_stable_witness :
    cleanTitleStr "Hello World" ≠ ""
    ∧ promoRest? (cleanTitleStr "Hello World").data = none
    ∧ cleanTitleStr (cleanTitleStr "Hello World") = cleanTitleStr "Hello World" :=
  ⟨by decide, by decide,
    (cleanTitle_idempotent_on_stable "Hello World").2 (by decide) (by decide)⟩

end FashionFinder
